import Mathlib

/-!
Shallow embedding of `factor_analyzer/factor_analyzer.py` (exploratory factor
analysis with MINRES/ML extraction and Varimax/Promax rotation).

Matrices are embedded row-major as `List (List ℝ)`.  Floating-point numbers
are modelled as real numbers.  Calls into external numerical libraries
(numpy/scipy eigendecomposition and SVD, scipy `minimize`, matrix inversion,
sklearn's linear regression) are modelled by an oracle structure `NumLib`
whose fields stand for those library routines; everything the repository
itself computes is embedded directly.  Python's in-place mutation of numpy
arrays (`np.fill_diagonal`) is embedded by explicit state passing: the
objective functions return the array value the caller's matrix holds after
the call.
-/

/-- Row-major matrix of reals, the embedding of a numpy 2-d array. -/
abbrev MatL := List (List ℝ)

/-- Data table whose cells may be missing (`none` models a NaN cell). -/
abbrev DataM := List (List (Option ℝ))

noncomputable instance : DecidableRel (fun a b : ℝ => a ≥ b) :=
  fun a b => inferInstanceAs (Decidable (b ≤ a))

noncomputable instance : DecidableRel (fun a b : ℝ => a ≤ b) :=
  fun a b => inferInstanceAs (Decidable (a ≤ b))

noncomputable instance : DecidableRel (fun a b : ℝ × ℕ => a.1 ≥ b.1) :=
  fun a b => inferInstanceAs (Decidable (b.1 ≤ a.1))

instance : IsTotal ℝ (fun a b : ℝ => a ≥ b) := ⟨fun a b => le_total b a⟩

instance : IsTrans ℝ (fun a b : ℝ => a ≥ b) := ⟨fun _ _ _ h h' => le_trans h' h⟩

instance : IsTotal ℝ (fun a b : ℝ => a ≤ b) := ⟨fun a b => le_total a b⟩

instance : IsTrans ℝ (fun a b : ℝ => a ≤ b) := ⟨fun _ _ _ h h' => le_trans h h'⟩

/-- Column `j` of a row-major matrix (numpy `M[:, j]`). -/
def colOf (M : MatL) (j : ℕ) : List ℝ := M.map (·.getD j 0)

/-- Matrix-vector product `M · v`. -/
def matVec (M : MatL) (v : List ℝ) : List ℝ :=
  M.map fun r => (List.zipWith (· * ·) r v).sum

/-- Matrix product (numpy `np.dot`), row-major. -/
def matMul (A B : MatL) : MatL :=
  A.map fun r => (List.range (B.headD []).length).map fun j =>
    (List.zipWith (fun a brow => a * brow.getD j 0) r B).sum

/-- Square diagonal matrix from a vector (numpy `np.diag(v)` for a vector). -/
def diagMat (d : List ℝ) : MatL :=
  (List.range d.length).map fun i =>
    (List.range d.length).map fun j => if i = j then d.getD i 0 else 0

/-- Diagonal of a matrix as a vector (numpy `np.diag(M)` for a matrix). -/
def diagOfM (M : MatL) : List ℝ :=
  (List.range M.length).map fun i => (M.getD i []).getD i 0

/-- Matrix transpose. -/
def transposeL (M : MatL) : MatL :=
  (List.range (M.headD []).length).map fun j => colOf M j

/-- Entrywise matrix subtraction. -/
def matSubL (A B : MatL) : MatL :=
  List.zipWith (fun ra rb => List.zipWith (· - ·) ra rb) A B

/-- Entrywise scalar multiple. -/
def smulMat (c : ℝ) (A : MatL) : MatL := A.map (·.map fun x => c * x)

/-- Identity matrix (numpy `np.eye n`). -/
def idMat (n : ℕ) : MatL := diagMat (List.replicate n 1)

/-- Embedding of `np.fill_diagonal (M, d)`: the matrix value after the
in-place write, entry `(i, i)` replaced by `d[i]`. -/
def fill_diagonal (M : MatL) (d : List ℝ) : MatL :=
  (List.range M.length).map fun i => (M.getD i []).set i (d.getD i 0)

/-- Column mean of a list of reals. -/
noncomputable def colMeanR (v : List ℝ) : ℝ := v.sum / v.length

/-- A column with its mean subtracted. -/
noncomputable def centered (c : List ℝ) : List ℝ := c.map fun x => x - colMeanR c

/-- Unnormalized covariance of two columns (the shared normalization cancels
in the Pearson correlation ratio). -/
noncomputable def covL (a b : List ℝ) : ℝ := (List.zipWith (· * ·) (centered a) (centered b)).sum

/-- Columns of a row-major data matrix. -/
def columnsOf (X : MatL) : List (List ℝ) :=
  (List.range (X.headD []).length).map fun j => X.map (·.getD j 0)

/-- Rebuild a row-major matrix with `n` rows from a list of columns. -/
def rowsFromCols (cols : List (List ℝ)) (n : ℕ) : MatL :=
  (List.range n).map fun i => cols.map (·.getD i 0)

/-- One entry of the pandas correlation matrix `data.corr()`: `none` models
the NaN produced when either column has zero variance (division by a zero
standard deviation). -/
noncomputable def corrEntryO (a b : List ℝ) : Option ℝ :=
  if covL a a = 0 ∨ covL b b = 0 then none
  else some (covL a b / (Real.sqrt (covL a a) * Real.sqrt (covL b b)))

/-- Embedding of pandas `data.corr()` on a fully numeric table, with `none`
for NaN entries. -/
noncomputable def pearsonO (X : MatL) : List (List (Option ℝ)) :=
  (columnsOf X).map fun a => (columnsOf X).map fun b => corrEntryO a b

/-- Embedding of `corr.isnull().any().any()`. -/
def hasNull (m : List (List (Option ℝ))) : Bool := m.any (·.any (·.isNone))

/-- Whether a data table has any missing cell (`df.isnull().any().any()`). -/
def hasMissingD (df : DataM) : Bool := df.any (·.any (·.isNone))

/-- Read a complete data table as a real matrix (`df.as_matrix()` on a table
without missing cells; missing cells are unreachable junk on the paths that
use this). -/
def derefD (df : DataM) : MatL := df.map (·.map (·.getD 0))

/-- Result record of scipy `minimize`. -/
structure OptRes where
  x : List ℝ
  success : Bool
  message : String

/-- Oracle for the delegated numerical routines: `eig` returns eigenvalues
together with the row-major matrix whose columns are eigenvectors
(`np.linalg.eig`), `svd` returns `(U, S, V)` (`np.linalg.svd`), `inv` is
`none` exactly when the library would raise `LinAlgError` (singular input),
`pinv` is the pseudo-inverse, `lstsqCoef X Y` is sklearn
`LinearRegression(fit_intercept=False).fit(X, Y).coef_`, and `minimize`
is scipy's bounded L-BFGS-B minimizer. -/
structure NumLib where
  eig : MatL → List ℝ × MatL
  svd : MatL → MatL × List ℝ × MatL
  inv : MatL → Option MatL
  pinv : MatL → MatL
  lstsqCoef : MatL → MatL → MatL
  minimize : (List ℝ → ℝ) → List ℝ → Option (List (ℝ × ℝ)) → OptRes

/-- The eigenvalue floor `np.finfo(float).eps * 100` used by the ULS
objective. -/
noncomputable def epsFloor : ℝ := 100 / 2 ^ 52

/-- Eigenvalues after `np.maximum(values, eps * 100)` (the real parts are
already taken, since the oracle returns real eigenvalues). -/
noncomputable def flooredVals (values : List ℝ) : List ℝ :=
  values.map fun v => max v epsFloor

/-- `sorted(values, reverse=True)[:n_factors]` applied to the floored
eigenvalues in the ULS objective. -/
noncomputable def ulsTopVals (values : List ℝ) (k : ℕ) : List ℝ :=
  (List.insertionSort (fun a b : ℝ => a ≥ b) (flooredVals values)).take k

/-- `vectors[:, :n_factors]`: the first `k` eigenvector columns in the
order the decomposition returned them (row-major slicing). -/
def ulsVecsSlice (vectors : MatL) (k : ℕ) : MatL := vectors.map (List.take k)

/-- The loadings built inside `_fit_uls_objective` from the
eigendecomposition output: `vectors · diag(sqrt(values))` for more than one
factor, `vectors * sqrt(values[0])` for a single factor. -/
noncomputable def ulsLoadingsFromEig (values : List ℝ) (vectors : MatL) (k : ℕ) : MatL :=
  if 1 < k then
    matMul (ulsVecsSlice vectors k) (diagMat ((ulsTopVals values k).map Real.sqrt))
  else
    (ulsVecsSlice vectors k).map (·.map fun x => x * Real.sqrt ((ulsTopVals values k).getD 0 0))

/-- Embedding of `FactorAnalyzer._fit_uls_objective`.  The second component
is the value the caller's `corr_mtx` array holds after the call: the
function begins with the in-place `np.fill_diagonal(corr_mtx, 1 - psi)`. -/
noncomputable def fit_uls_objective (lib : NumLib) (psi : List ℝ) (corr_mtx : MatL)
    (n_factors : ℕ) : ℝ × MatL :=
  let corr' := fill_diagonal corr_mtx (psi.map fun x => 1 - x)
  let ev := lib.eig corr'
  let loadings := ulsLoadingsFromEig ev.1 ev.2 n_factors
  let model := matMul loadings (transposeL loadings)
  let residual := (matSubL corr' model).map (·.map fun x => x ^ 2)
  ((residual.map List.sum).sum, corr')

/-- Python slice `l[:-k]` for `k ≥ 1` (and `l[:-0] = []`, as in Python). -/
def pySliceDropLast (l : List ℝ) (k : ℕ) : List ℝ :=
  if k = 0 then [] else l.take (l.length - k)

/-- `sorted(values)[:-n_factors][::-1]` in the ML objective: ascending sort,
drop the last `k`, reverse. -/
noncomputable def mlRetained (values : List ℝ) (k : ℕ) : List ℝ :=
  (pySliceDropLast (List.insertionSort (fun a b : ℝ => a ≤ b) values) k).reverse

/-- `np.diag(1 / np.sqrt(psi))`. -/
noncomputable def scMat (psi : List ℝ) : MatL :=
  diagMat (psi.map fun x => 1 / Real.sqrt x)

/-- `sstar = sc · corr · sc` in the ML objective. -/
noncomputable def sstar (psi : List ℝ) (corr : MatL) : MatL :=
  matMul (matMul (scMat psi) corr) (scMat psi)

/-- Eigenvalues the ML objective works with: the oracle's output on
`sstar`. -/
noncomputable def mlVals (lib : NumLib) (psi : List ℝ) (corr : MatL) : List ℝ :=
  (lib.eig (sstar psi corr)).1

/-- Embedding of `FactorAnalyzer._fit_ml_objective`.  The second component
is the caller's `corr_mtx` after the call; this function only reads it
(`np.dot` allocates fresh arrays), so that component equals the input. -/
noncomputable def fit_ml_objective (lib : NumLib) (psi : List ℝ) (corr_mtx : MatL)
    (n_factors : ℕ) : ℝ × MatL :=
  let retained := mlRetained (mlVals lib psi corr_mtx) n_factors
  (-(((retained.map fun v => Real.log v - v).sum) - n_factors + corr_mtx.length), corr_mtx)

/-- Embedding of `FactorAnalyzer._normalize_wls`: diagonal replaced by
`1 - solution`, first `k` eigenpairs in the decomposition's natural order,
eigenvalues clipped at `0`. -/
noncomputable def normalize_wls (lib : NumLib) (solution : List ℝ) (corr : MatL)
    (n_factors : ℕ) : MatL :=
  let corr' := fill_diagonal corr (solution.map fun x => 1 - x)
  let ev := lib.eig corr'
  matMul (ulsVecsSlice ev.2 n_factors)
    (diagMat (((ev.1.take n_factors).map fun v => max v 0).map Real.sqrt))

/-- Embedding of `FactorAnalyzer._normalize_ml`: eigenvalues of `sstar`
sorted descending, top `k`, minus one, clipped at `0`; first `k`
eigenvector columns; final scaling by `diag(sqrt(solution))`. -/
noncomputable def normalize_ml (lib : NumLib) (solution : List ℝ) (corr : MatL)
    (n_factors : ℕ) : MatL :=
  let ev := lib.eig (sstar solution corr)
  let vals := ((List.insertionSort (fun a b : ℝ => a ≥ b) ev.1).take n_factors).map
    fun v => max (v - 1) 0
  let loadings := matMul (ulsVecsSlice ev.2 n_factors) (diagMat (vals.map Real.sqrt))
  matMul (diagMat (solution.map Real.sqrt)) loadings

/-- Error taxonomy of the `ValueError`s/`LinAlgError`s the module raises. -/
inductive FAErr where
  | nullCorr
  | singular
  | badRotation
  | badImpute
  | scaleFailed
  | unpackFailed
deriving DecidableEq

/-- The warning logged when an unrecognized `method` falls back to MINRES. -/
def methodWarning : String := "method fallback to minres"

/-- The warning logged when the optimizer fails to converge. -/
def convergenceWarning : String := "failed to converge"

/-- The body of `fit_factor_analysis` after the method-fallback warning:
correlation null check, SMC-based start vector, bounded minimization and
normalization.  `useML` is the source's test `method == 'ml'`; any other
method string selects the MINRES path. -/
noncomputable def fitCore (lib : NumLib) (log_warnings : Bool) (data : MatL)
    (n_factors : ℕ) (use_smc : Bool) (bounds : Option (ℝ × ℝ)) (useML : Bool) :
    Except FAErr MatL × List String :=
  let corrO := pearsonO data
  if hasNull corrO then (Except.error FAErr.nullCorr, [])
  else
    let corr := corrO.map (·.map (·.getD 0))
    let startE : Except FAErr (List ℝ) :=
      if use_smc then
        -- smc(data) recomputes data.corr() (equal to corr) and inverts it;
        -- start = np.diag(corr) - (1 - 1/np.diag(corr_inv))
        match lib.inv corr with
        | none => Except.error FAErr.singular
        | some ci =>
          Except.ok (List.zipWith (fun d s => d - s) (diagOfM corr)
            ((diagOfM ci).map fun x => 1 - 1 / x))
      else Except.ok (List.replicate corr.length (1 / 2))
    match startE with
    | Except.error e => (Except.error e, [])
    | Except.ok start =>
      let boundsList := bounds.map fun b => List.replicate corr.length b
      -- The ULS objective's value depends on corr only through its
      -- off-diagonal entries (the diagonal is overwritten on entry), so the
      -- repeated in-place diagonal mutation does not change the function
      -- scipy minimizes; the pure objective below is therefore faithful.
      let objective : List ℝ → ℝ :=
        if useML then fun psi => (fit_ml_objective lib psi corr n_factors).1
        else fun psi => (fit_uls_objective lib psi corr n_factors).1
      let res := lib.minimize objective start boundsList
      let w2 := if res.success = false ∧ log_warnings = true then [convergenceWarning] else []
      let loadings :=
        if useML then normalize_ml lib res.x corr n_factors
        else normalize_wls lib res.x corr n_factors
      (Except.ok loadings, w2)

/-- Embedding of `FactorAnalyzer.fit_factor_analysis`.  Returns the fitting
outcome together with the list of warnings the call logs (warnings are
emitted only when the analyzer was constructed with `log_warnings=True`;
the method-fallback warning is logged on entry, before the null check). -/
noncomputable def fit_factor_analysis (lib : NumLib) (log_warnings : Bool) (data : MatL)
    (n_factors : ℕ) (use_smc : Bool) (bounds : Option (ℝ × ℝ)) (method : String) :
    Except FAErr MatL × List String :=
  let w1 := if method ∉ ["ml", "minres"] ∧ log_warnings = true then [methodWarning] else []
  let r := fitCore lib log_warnings data n_factors use_smc bounds (method == "ml")
  (r.1, w1 ++ r.2)

/-- Row norms used by Kaiser normalization in `varimax`. -/
noncomputable def kaiserNorms (df : MatL) : List ℝ :=
  df.map fun row => Real.sqrt ((row.map fun x => x ^ 2).sum)

/-- The `for _ in range(max_iter)` loop of `varimax`, with the running
rotation matrix and singular-value sum `d` as state. -/
noncomputable def varimaxLoop (lib : NumLib) (X : MatL) (n_rows : ℕ) (tolerance : ℝ) :
    ℕ → MatL → ℝ → MatL × ℝ
  | 0, rotation_mtx, d => (rotation_mtx, d)
  | fuel + 1, rotation_mtx, d =>
    let basis := matMul X rotation_mtx
    let transformed := matMul (transposeL X)
      (matSubL (basis.map (·.map fun x => x ^ 3))
        (smulMat (1 / (n_rows : ℝ)) (matMul basis (diagMat (diagOfM (matMul (transposeL basis) basis))))))
    let sv := lib.svd transformed
    let rotation' := matMul sv.1 sv.2.2
    let d' := sv.2.1.sum
    if d ≠ 0 ∧ d' / d < 1 + tolerance then (rotation', d')
    else varimaxLoop lib X n_rows tolerance fuel rotation' d'

/-- Embedding of `FactorAnalyzer.varimax`.  The second component models what
the Python function returns alongside the loadings: on the `n_cols < 2`
branch the source returns only the dataframe (no rotation matrix), embedded
as `none`; the full path returns the rotation matrix, embedded as `some`. -/
noncomputable def varimax (lib : NumLib) (data : MatL) (normalizeK : Bool)
    (max_iter : ℕ) (tolerance : ℝ) : MatL × Option MatL :=
  let df := data
  let n_cols := (df.headD []).length
  if n_cols < 2 then (df, none)
  else
    let X := if normalizeK then
        List.zipWith (fun row m => row.map fun x => x / m) df (kaiserNorms df)
      else df
    let res := varimaxLoop lib X df.length tolerance max_iter (idMat n_cols) 0
    let X' := matMul X res.1
    let loadings := if normalizeK then
        List.zipWith (fun row m => row.map fun x => x * m) X' (kaiserNorms df)
      else X'
    (loadings, some res.1)

/-- Embedding of `FactorAnalyzer.promax`; as with `varimax`, the source
returns only the dataframe on the `n_cols < 2` branch (`none` here). -/
noncomputable def promax (lib : NumLib) (data : MatL) (normalizeK : Bool)
    (power : ℕ) : MatL × Option MatL :=
  let df := data
  let n_cols := (df.headD []).length
  if n_cols < 2 then (df, none)
  else
    let h2 := df.map fun row => (row.map fun x => x ^ 2).sum
    let weights := if normalizeK then
        List.zipWith (fun row h => row.map fun x => x / Real.sqrt h) df h2
      else df
    let vr := varimax lib weights normalizeK 500 (1 / 100000)
    let X := vr.1
    let rotation0 := vr.2.getD []
    let Y := X.map (·.map fun x => x * |x| ^ (power - 1))
    let coef := transposeL (lib.lstsqCoef X Y)
    let ctc := matMul (transposeL coef) coef
    let diag_inv := match lib.inv ctc with
      | some m => diagOfM m
      | none => diagOfM (lib.pinv ctc)
    let coef' := matMul coef (diagMat (diag_inv.map Real.sqrt))
    let z := matMul X coef'
    let z' := if normalizeK then
        List.zipWith (fun row h => row.map fun x => x * Real.sqrt h) z h2
      else z
    (z', some (matMul rotation0 coef'))

/-- pandas column median over the non-missing values. -/
noncomputable def colMedian (v : List ℝ) : ℝ :=
  let s := List.insertionSort (fun a b : ℝ => a ≤ b) v
  if v.length % 2 = 1 then s.getD (v.length / 2) 0
  else (s.getD (v.length / 2 - 1) 0 + s.getD (v.length / 2) 0) / 2

/-- `Series.fillna` with a statistic of the non-missing values; a column
with no observed value stays missing (pandas fills with NaN there). -/
noncomputable def fillNaWith (f : List ℝ → ℝ) (c : List (Option ℝ)) : List (Option ℝ) :=
  let v := c.filterMap id
  if v.isEmpty then c else c.map fun x => some (x.getD (f v))

/-- Columns of a data table with missing cells. -/
def colsOfD (df : DataM) : List (List (Option ℝ)) :=
  (List.range (df.headD []).length).map fun j => df.map (·.getD j none)

/-- Rebuild a data table from columns. -/
def rowsFromColsD (cols : List (List (Option ℝ))) (n : ℕ) : DataM :=
  (List.range n).map fun i => cols.map (·.getD i none)

/-- The missing-data branch of `analyze`: impute per column or drop rows,
else raise. -/
noncomputable def imputeData (impute : String) (df : DataM) : Except FAErr DataM :=
  if impute = "median" then
    Except.ok (rowsFromColsD ((colsOfD df).map (fillNaWith colMedian)) df.length)
  else if impute = "mean" then
    Except.ok (rowsFromColsD ((colsOfD df).map (fillNaWith colMeanR)) df.length)
  else if impute = "drop" then
    Except.ok (df.filter fun r => r.all (·.isSome))
  else Except.error FAErr.badImpute

/-- sklearn `scale`: per column, subtract the mean and divide by the
population standard deviation. -/
noncomputable def scaleCol (c : List ℝ) : List ℝ :=
  c.map fun x => (x - colMeanR c) / Real.sqrt (covL c c / c.length)

/-- `scale` applied to a full table. -/
noncomputable def scaleM (X : MatL) : MatL :=
  rowsFromCols ((columnsOf X).map scaleCol) X.length

/-- The mutable fields of a `FactorAnalyzer` instance. -/
structure AnalyzerState where
  log_warnings : Bool
  corr : Option (List (List (Option ℝ)))
  loadings : Option MatL
  rotation_matrix : Option MatL

/-- The computation `analyze` performs before assigning the instance
fields: validation, imputation, scaling, fitting and rotation.  Returns the
triple that lines 635-637 of the source store into the instance, plus the
warnings logged along the way.  (`remove_non_numeric` is the identity here:
every cell of this model's data tables is numeric, and NaN cells count as
numeric for `sp.isreal`.) -/
noncomputable def analyzeCompute (lib : NumLib) (log_warnings : Bool) (data : DataM)
    (n_factors : ℕ) (rotation : Option String) (method : String) (use_smc : Bool)
    (bounds : Option (ℝ × ℝ)) (normalizeK : Bool) (impute : String) :
    Except FAErr ((List (List (Option ℝ)) × MatL × Option MatL) × List String) :=
  if rotation ∉ [some "varimax", some "promax", none] then Except.error FAErr.badRotation
  else
    match (if hasMissingD data then imputeData impute data else Except.ok data) with
    | Except.error e => Except.error e
    | Except.ok df =>
      -- sklearn scale raises ValueError on remaining NaN cells
      -- (a column that was entirely missing), re-raised by analyze.
      if hasMissingD df then Except.error FAErr.scaleFailed
      else
        let X := scaleM (derefD df)
        match fit_factor_analysis lib log_warnings X n_factors use_smc bounds method with
        | (Except.error e, _) => Except.error e
        | (Except.ok loadings, ws) =>
          let rotRes : Except FAErr (MatL × Option MatL) :=
            match rotation with
            | some r =>
              if r = "varimax" then
                match varimax lib loadings normalizeK 500 (1 / 100000) with
                | (l, some rm) => Except.ok (l, some rm)
                -- the source returns a bare dataframe for fewer than two
                -- factors; the caller's tuple unpacking then fails
                | (_, none) => Except.error FAErr.unpackFailed
              else if r = "promax" then
                match promax lib loadings normalizeK 4 with
                | (l, some rm) => Except.ok (l, some rm)
                | (_, none) => Except.error FAErr.unpackFailed
              else Except.ok (loadings, none)
            | none => Except.ok (loadings, none)
          match rotRes with
          | Except.error e => Except.error e
          | Except.ok lr => Except.ok ((pearsonO (derefD df), lr.1, lr.2), ws)

/-- Embedding of `FactorAnalyzer.analyze`.  The Python method returns
`None`; its effect is the assignment of `self.corr`, `self.loadings` and
`self.rotation_matrix`, embedded as the returned post-state. -/
noncomputable def analyze (lib : NumLib) (s : AnalyzerState) (data : DataM)
    (n_factors : ℕ) (rotation : Option String) (method : String) (use_smc : Bool)
    (bounds : Option (ℝ × ℝ)) (normalizeK : Bool) (impute : String) :
    Except FAErr (AnalyzerState × List String) :=
  match analyzeCompute lib s.log_warnings data n_factors rotation method use_smc bounds
      normalizeK impute with
  | Except.error e => Except.error e
  | Except.ok r =>
    Except.ok ({ log_warnings := s.log_warnings, corr := some r.1.1,
                 loadings := some r.1.2.1, rotation_matrix := r.1.2.2 }, r.2)

/-- Embedding of `FactorAnalyzer.get_communalities`: `None` until an
analysis has stored loadings, else the row sums of squared loadings. -/
def get_communalities (s : AnalyzerState) : Option (List ℝ) :=
  s.loadings.map fun L => L.map fun row => (row.map fun x => x ^ 2).sum

/-- Embedding of `FactorAnalyzer.get_uniqueness`. -/
def get_uniqueness (s : AnalyzerState) : Option (List ℝ) :=
  match s.loadings with
  | none => none
  | some _ => (get_communalities s).map (·.map fun c => 1 - c)

/-- Embedding of `FactorAnalyzer.get_eigenvalues`: requires both a stored
correlation matrix and stored loadings, else `None`. -/
noncomputable def get_eigenvalues (lib : NumLib) (s : AnalyzerState) :
    Option (List ℝ × List ℝ) :=
  match s.corr, s.loadings with
  | some corrO, some _ =>
    let corr := corrO.map (·.map (·.getD 0))
    let e1 := List.insertionSort (fun a b : ℝ => a ≥ b) (lib.eig corr).1
    let communalities := (get_communalities s).getD []
    let corr2 := fill_diagonal corr communalities
    let e2 := List.insertionSort (fun a b : ℝ => a ≥ b) (lib.eig corr2).1
    some (e1, e2)
  | _, _ => none

/-- The variance table `get_factor_variance` builds from a loadings matrix:
per-factor sum of squared loadings, proportion (divide by the number of
variables) and the cumulative sum of the proportions. -/
noncomputable def factorVarianceCore (L : MatL) : List ℝ × List ℝ × List ℝ :=
  let sq := L.map (·.map fun x => x ^ 2)
  let variance := (List.range (sq.headD []).length).map fun j => (sq.map (·.getD j 0)).sum
  let prop := variance.map fun v => v / (L.length : ℝ)
  let cum := (List.range prop.length).map fun i => (prop.take (i + 1)).sum
  (variance, prop, cum)

/-- Embedding of `FactorAnalyzer.get_factor_variance`. -/
noncomputable def get_factor_variance (s : AnalyzerState) : Option (List ℝ × List ℝ × List ℝ) :=
  s.loadings.map factorVarianceCore

/-- Sample Pearson correlation matrix of an `n × p` data matrix, the
total-function model of `data.corr()` used by `calculate_bartlett_sphericity`
(whose claim presupposes a well-defined correlation matrix). -/
noncomputable def pearsonM {n p : ℕ} (X : Matrix (Fin n) (Fin p) ℝ) :
    Matrix (Fin p) (Fin p) ℝ :=
  Matrix.of fun j₁ j₂ =>
    (∑ i, (X i j₁ - (∑ r, X r j₁) / n) * (X i j₂ - (∑ r, X r j₂) / n)) /
      (Real.sqrt (∑ i, (X i j₁ - (∑ r, X r j₁) / n) ^ 2) *
       Real.sqrt (∑ i, (X i j₂ - (∑ r, X r j₂) / n) ^ 2))

/-- The chi-square probability density function with `k` degrees of freedom
(scipy `chi2.pdf`), zero left of the support. -/
noncomputable def chi2pdf (x k : ℝ) : ℝ :=
  if x < 0 then 0
  else Real.rpow x (k / 2 - 1) * Real.exp (-x / 2) /
    (Real.rpow 2 (k / 2) * Real.Gamma (k / 2))

/-- The chi-square statistic of `calculate_bartlett_sphericity`. -/
noncomputable def bartlettChi2 {n p : ℕ} (X : Matrix (Fin n) (Fin p) ℝ) : ℝ :=
  -((n : ℝ) - 1 - (2 * (p : ℝ) + 5) / 6) * Real.log (pearsonM X).det

/-- Embedding of `calculate_bartlett_sphericity`: returns the chi-square
statistic, the degrees of freedom and the p-value (the chi-square density
at the statistic). -/
noncomputable def calculate_bartlett_sphericity {n p : ℕ}
    (X : Matrix (Fin n) (Fin p) ℝ) : ℝ × ℝ × ℝ :=
  (bartlettChi2 X, (p : ℝ) * ((p : ℝ) - 1) / 2,
    chi2pdf (bartlettChi2 X) ((p : ℝ) * ((p : ℝ) - 1) / 2))

/-- Eigenvalue/eigenvector pairs of a list matrix: column `j` of `vectors`
is an eigenvector of `M` for eigenvalue `values[j]`.  This is what
`np.linalg.eig` guarantees about its output, with no promise about the
order of the pairs. -/
def IsEigenpairsL (M : MatL) (values : List ℝ) (vectors : MatL) : Prop :=
  ∀ j < values.length,
    matVec M (colOf vectors j) = (colOf vectors j).map fun x => values.getD j 0 * x

/-- Modelled from the spec's words (for comparison with the source's
`_fit_uls_objective`): the floored eigenvalues paired with their column
indices and sorted descending by eigenvalue, so that the eigenvectors kept
are the ones belonging to the largest eigenvalues. -/
noncomputable def specSortedPairs (values : List ℝ) : List (ℝ × ℕ) :=
  List.insertionSort (fun a b : ℝ × ℕ => a.1 ≥ b.1)
    ((flooredVals values).zip (List.range values.length))

/-- Modelled from the spec: the `k` largest floored eigenvalues in
descending order. -/
noncomputable def specTopVals (values : List ℝ) (k : ℕ) : List ℝ :=
  ((specSortedPairs values).map (·.1)).take k

/-- Modelled from the spec: the eigenvector columns belonging to the `k`
largest eigenvalues, as a row-major matrix. -/
noncomputable def specTopVecs (values : List ℝ) (vectors : MatL) (k : ℕ) : MatL :=
  vectors.map fun r => (((specSortedPairs values).map (·.2)).take k).map fun j => r.getD j 0

/-- Modelled from the spec: loadings built from the top-`k` eigenvectors,
column `j` scaled by the square root of its own eigenvalue (with the same
single-factor special case the spec states). -/
noncomputable def specUlsLoadings (values : List ℝ) (vectors : MatL) (k : ℕ) : MatL :=
  if 1 < k then
    matMul (specTopVecs values vectors k) (diagMat ((specTopVals values k).map Real.sqrt))
  else
    (specTopVecs values vectors k).map (·.map fun x => x * Real.sqrt ((specTopVals values k).getD 0 0))

/-- A trivial instantiation of the numerical oracle, used to evaluate the
embedded pipeline on concrete inputs. -/
def lib0 : NumLib where
  eig := fun _ => ([], [])
  svd := fun _ => ([], [], [])
  inv := fun _ => none
  pinv := fun _ => []
  lstsqCoef := fun _ _ => []
  minimize := fun _ start _ => ⟨start, true, ""⟩

/-- An oracle whose eigendecomposition reports eigenvalues `[2, 1]`, used
to exercise the ML objective's eigenvalue selection concretely. -/
def lib1 : NumLib where
  eig := fun _ => ([2, 1], [])
  svd := fun _ => ([], [], [])
  inv := fun _ => none
  pinv := fun _ => []
  lstsqCoef := fun _ _ => []
  minimize := fun _ start _ => ⟨start, true, ""⟩

/-- A freshly constructed analyzer: no analysis has run, all result fields
are `None`. -/
def st0 : AnalyzerState := ⟨false, none, none, none⟩

/-- A complete two-observation, two-variable data table whose columns are
already standardized (mean zero, unit population variance). -/
def data0 : DataM := [[some 1, some (-1)], [some (-1), some 1]]

/-! ### Helper lemmas -/

theorem getD_map_range {α : Type} (f : ℕ → α) (n i : ℕ) (d : α) :
    (((List.range n).map f).getD i d) = if i < n then f i else d := by
  rcases lt_or_ge i n with h | h
  · rw [if_pos h]
    rw [List.getD_eq_getElem?_getD, List.getElem?_map, List.getElem?_range h]
    rfl
  · rw [if_neg (not_lt.mpr h)]
    apply List.getD_eq_default
    simpa using h

theorem fill_diagonal_getD (M : MatL) (d : List ℝ) (i : ℕ) :
    (fill_diagonal M d).getD i [] =
      if i < M.length then (M.getD i []).set i (d.getD i 0) else [] := by
  rw [fill_diagonal, getD_map_range]

theorem take_eq_map_getD : ∀ (r : List ℝ) (k : ℕ), k ≤ r.length →
    r.take k = (List.range k).map fun j => r.getD j 0
  | _, 0, _ => by simp
  | [], k + 1, h => by simp at h
  | x :: t, k + 1, h => by
    rw [List.take_succ_cons, List.range_succ_eq_map, List.map_cons]
    simp only [List.getD_cons_zero, List.map_map]
    rw [take_eq_map_getD t k (by simpa using h)]
    rfl

theorem pairwise_zip_left {α β : Type} {R : α → α → Prop} :
    ∀ (l₁ : List α) (l₂ : List β), l₁.Pairwise R →
      (l₁.zip l₂).Pairwise fun a b => R a.1 b.1
  | [], _, _ => by simp
  | _ :: _, [], _ => by simp
  | a :: l₁, b :: l₂, h => by
    rw [List.zip_cons_cons, List.pairwise_cons]
    rw [List.pairwise_cons] at h
    refine ⟨fun p hp => ?_, pairwise_zip_left l₁ l₂ h.2⟩
    exact h.1 p.1 (List.of_mem_zip hp).1

theorem sq_getD_nonneg : ∀ (row : List ℝ) (j : ℕ),
    0 ≤ (row.map fun x => x ^ 2).getD j 0
  | [], j => by simp
  | x :: row, 0 => by simpa using sq_nonneg x
  | x :: row, j + 1 => by simpa using sq_getD_nonneg row j

theorem sum_take_mono {l : List ℝ} (hl : ∀ x ∈ l, 0 ≤ x) {i j : ℕ} (hij : i ≤ j) :
    (l.take i).sum ≤ (l.take j).sum := by
  have heq : l.take i = (l.take j).take i := by
    rw [List.take_take, min_eq_left hij]
  rw [heq]
  exact List.Sublist.sum_le_sum (List.take_sublist _ _)
    fun a ha => hl a (List.take_subset _ _ ha)

/-! ### Claim theorems -/

/-- C2: on a loadings matrix with a single factor column, both `varimax`
and `promax` return the loadings unchanged, but — contrary to the claim and
to their own docstrings — return no rotation matrix at all (the source
returns the bare dataframe, so the caller's tuple unpacking fails); the
claimed identity rotation matrix is never produced. -/
theorem varimax_promax_single_factor_no_rotation_matrix :
    varimax lib0 [[1], [2]] true 500 (1 / 100000) = ([[1], [2]], none) ∧
    promax lib0 [[1], [2]] false 4 = ([[1], [2]], none) := by
  constructor <;> rfl

/-- C5: `calculate_bartlett_sphericity` returns the chi-square statistic
`-(n - 1 - (2p+5)/6) · ln(det R)` over the data's Pearson correlation
matrix `R`, the degrees of freedom `p(p-1)/2`, and as p-value the
chi-square probability density (not the survival function) evaluated at
that statistic with those degrees of freedom. -/
theorem bartlett_sphericity_formula {n p : ℕ} (X : Matrix (Fin n) (Fin p) ℝ) :
    calculate_bartlett_sphericity X =
      (-((n : ℝ) - 1 - (2 * (p : ℝ) + 5) / 6) * Real.log (pearsonM X).det,
       (p : ℝ) * ((p : ℝ) - 1) / 2,
       chi2pdf (-((n : ℝ) - 1 - (2 * (p : ℝ) + 5) / 6) * Real.log (pearsonM X).det)
         ((p : ℝ) * ((p : ℝ) - 1) / 2)) := rfl

/-- C10: every diagnostic getter returns `None` (rather than raising or
returning a table) on an analyzer whose stored loadings are `None`. -/
theorem getters_none_before_analysis (lib : NumLib) (s : AnalyzerState)
    (h : s.loadings = none) :
    get_communalities s = none ∧ get_uniqueness s = none ∧
    get_eigenvalues lib s = none ∧ get_factor_variance s = none := by
  refine ⟨?_, ?_, ?_, ?_⟩
  · simp [get_communalities, h]
  · simp [get_uniqueness, h]
  · cases hc : s.corr <;> simp [get_eigenvalues, h, hc]
  · simp [get_factor_variance, h]

/-- C10 witness: the getters evaluated on a freshly constructed analyzer. -/
theorem getters_none_before_analysis_witness :
    st0.loadings = none ∧
    (get_communalities st0 = none ∧ get_uniqueness st0 = none ∧
     get_eigenvalues lib0 st0 = none ∧ get_factor_variance st0 = none) :=
  ⟨rfl, getters_none_before_analysis lib0 st0 rfl⟩

/-- C3 counterexample: one evaluation of the ULS objective changes the
matrix the caller passed in — the diagonal substitution is written into the
caller's array, not into a private copy. -/
theorem uls_objective_mutates_caller_matrix_cex :
    (fit_uls_objective lib0 [1 / 2, 1 / 2] [[1, 0], [0, 1]] 1).2 ≠ [[1, 0], [0, 1]] := by
  intro h
  have h0 := congrArg (fun m : MatL => (m.headD []).headD 0) h
  simp only [fit_uls_objective, fill_diagonal] at h0
  norm_num [List.range_succ] at h0

/-- C3 (amended): the ML objective leaves the caller's correlation matrix
unchanged, but the ULS objective overwrites the caller's matrix diagonal in
place with `1 - psi`; only the off-diagonal entries are preserved across the
call. -/
theorem objective_matrix_effects (lib : NumLib) (psi : List ℝ) (corr : MatL) (k : ℕ) :
    (fit_ml_objective lib psi corr k).2 = corr ∧
    (fit_uls_objective lib psi corr k).2 = fill_diagonal corr (psi.map fun x => 1 - x) ∧
    ∀ i j : ℕ, i ≠ j →
      ((fit_uls_objective lib psi corr k).2.getD i []).getD j 0
        = (corr.getD i []).getD j 0 := by
  refine ⟨rfl, rfl, ?_⟩
  intro i j hij
  show ((fill_diagonal corr _).getD i []).getD j 0 = _
  rw [fill_diagonal_getD]
  split
  · rw [List.getD_eq_getElem?_getD, List.getElem?_set_ne hij, ← List.getD_eq_getElem?_getD]
  · rename_i hlen
    have hc : corr.getD i [] = [] := List.getD_eq_default _ _ (by simpa using hlen)
    rw [hc]

/-- C3 witness: the matrix-effect theorem applied at a concrete input. -/
theorem objective_matrix_effects_witness :
    ((0 : ℕ) ≠ 1) ∧
    (fit_ml_objective lib0 [1 / 2, 1 / 2] [[1, 0], [0, 1]] 1).2 = [[1, 0], [0, 1]] ∧
    ((fit_uls_objective lib0 [1 / 2, 1 / 2] [[1, 0], [0, 1]] 1).2.getD 0 []).getD 1 0
      = (([[1, 0], [0, 1]] : MatL).getD 0 []).getD 1 0 :=
  ⟨by decide,
   (objective_matrix_effects lib0 [1 / 2, 1 / 2] [[1, 0], [0, 1]] 1).1,
   (objective_matrix_effects lib0 [1 / 2, 1 / 2] [[1, 0], [0, 1]] 1).2.2 0 1 (by decide)⟩

/-- C9: in the factor-variance table, the cumulative-proportion row is
non-decreasing across factors. -/
theorem factor_variance_cumulative_monotone (s : AnalyzerState)
    (out : List ℝ × List ℝ × List ℝ) (h : get_factor_variance s = some out) :
    List.Sorted (fun a b : ℝ => a ≤ b) out.2.2 := by
  rcases hs : s.loadings with _ | L
  · rw [get_factor_variance, hs] at h
    exact absurd h (by simp)
  · rw [get_factor_variance, hs, Option.map_some'] at h
    obtain rfl : factorVarianceCore L = out := Option.some.inj h
    simp only [factorVarianceCore]
    set prop := ((List.range ((L.map (·.map fun x => x ^ 2)).headD []).length).map
      fun j => ((L.map (·.map fun x => x ^ 2)).map (·.getD j 0)).sum).map
      fun v => v / (L.length : ℝ) with hprop
    have hnonneg : ∀ x ∈ prop, 0 ≤ x := by
      intro x hx
      rw [hprop] at hx
      simp only [List.mem_map, List.mem_range] at hx
      obtain ⟨v, ⟨j, _, rfl⟩, rfl⟩ := hx
      refine div_nonneg (List.sum_nonneg ?_) (Nat.cast_nonneg _)
      intro a ha
      simp only [List.mem_map] at ha
      obtain ⟨row, ⟨r, _, rfl⟩, rfl⟩ := ha
      exact sq_getD_nonneg r j
    rw [List.Sorted, List.pairwise_map]
    refine (List.pairwise_lt_range _).imp ?_
    intro a b hab
    exact sum_take_mono hnonneg (Nat.succ_le_succ hab.le)

/-- C9 witness: the cumulative row of a concrete two-factor variance table
is non-decreasing. -/
theorem factor_variance_cumulative_monotone_witness :
    get_factor_variance ⟨false, none, some [[1, 2], [3, 4]], none⟩
      = some (factorVarianceCore [[1, 2], [3, 4]]) ∧
    List.Sorted (fun a b : ℝ => a ≤ b) (factorVarianceCore [[1, 2], [3, 4]]).2.2 :=
  ⟨rfl, factor_variance_cumulative_monotone ⟨false, none, some [[1, 2], [3, 4]], none⟩ _ rfl⟩

/-- C6: the ML objective sorts the eigenvalues of
`diag(1/sqrt(psi)) · corr · diag(1/sqrt(psi))` ascending, drops the `k`
largest, reverses the remainder to descending order, and its value is
`-(Σ (log v - v) - k + p)` over that retained set. -/
theorem ml_objective_eigenvalue_selection (lib : NumLib) (psi : List ℝ) (corr : MatL)
    (k : ℕ) (hk : 1 ≤ k) (hkl : k ≤ (mlVals lib psi corr).length) :
    (fit_ml_objective lib psi corr k).1 =
      -((((mlRetained (mlVals lib psi corr) k).map fun v => Real.log v - v).sum)
        - (k : ℝ) + (corr.length : ℝ)) ∧
    List.Sorted (fun a b : ℝ => a ≥ b) (mlRetained (mlVals lib psi corr) k) ∧
    ∃ dropped : List ℝ,
      List.insertionSort (fun a b : ℝ => a ≤ b) (mlVals lib psi corr) =
        (mlRetained (mlVals lib psi corr) k).reverse ++ dropped ∧
      dropped.length = k ∧
      ∀ x ∈ mlRetained (mlVals lib psi corr) k, ∀ y ∈ dropped, x ≤ y := by
  set vals := mlVals lib psi corr with hvals
  set s := List.insertionSort (fun a b : ℝ => a ≤ b) vals with hsdef
  have hslen : s.length = vals.length := (List.perm_insertionSort _ _).length_eq
  have hssorted : List.Sorted (fun a b : ℝ => a ≤ b) s :=
    List.sorted_insertionSort _ _
  have hret : mlRetained vals k = (s.take (s.length - k)).reverse := by
    rw [mlRetained, pySliceDropLast, if_neg (by omega)]
  refine ⟨rfl, ?_, ?_⟩
  · rw [hret, List.Sorted, List.pairwise_reverse]
    exact List.Pairwise.sublist (List.take_sublist _ _) hssorted
  · refine ⟨s.drop (s.length - k), ?_, ?_, ?_⟩
    · rw [hret, List.reverse_reverse, List.take_append_drop]
    · rw [List.length_drop]
      omega
    · intro x hx y hy
      rw [hret, List.mem_reverse] at hx
      have hsplit : List.Pairwise (fun a b : ℝ => a ≤ b)
          (s.take (s.length - k) ++ s.drop (s.length - k)) := by
        rw [List.take_append_drop]
        exact hssorted
      exact (List.pairwise_append.mp hsplit).2.2 x hx y hy

/-- C6 witness: the selection theorem at a concrete oracle whose
eigendecomposition reports eigenvalues `[2, 1]`, with one factor. -/
theorem ml_objective_eigenvalue_selection_witness :
    ((1 : ℕ) ≤ 1 ∧ 1 ≤ (mlVals lib1 [1, 1] [[1, 0], [0, 1]]).length) ∧
    ((fit_ml_objective lib1 [1, 1] [[1, 0], [0, 1]] 1).1 =
      -((((mlRetained (mlVals lib1 [1, 1] [[1, 0], [0, 1]]) 1).map
          fun v => Real.log v - v).sum) - (1 : ℝ) + (2 : ℝ)) ∧
     List.Sorted (fun a b : ℝ => a ≥ b) (mlRetained (mlVals lib1 [1, 1] [[1, 0], [0, 1]]) 1) ∧
     ∃ dropped : List ℝ,
       List.insertionSort (fun a b : ℝ => a ≤ b) (mlVals lib1 [1, 1] [[1, 0], [0, 1]]) =
         (mlRetained (mlVals lib1 [1, 1] [[1, 0], [0, 1]]) 1).reverse ++ dropped ∧
       dropped.length = 1 ∧
       ∀ x ∈ mlRetained (mlVals lib1 [1, 1] [[1, 0], [0, 1]]) 1,
         ∀ y ∈ dropped, x ≤ y) := by
  have hlen : (mlVals lib1 [1, 1] [[1, 0], [0, 1]]).length = 2 := rfl
  refine ⟨⟨le_refl 1, by rw [hlen]; omega⟩, ?_⟩
  have := ml_objective_eigenvalue_selection lib1 [1, 1] [[1, 0], [0, 1]] 1
    (le_refl 1) (by rw [hlen]; omega)
  simpa using this

/-- C1 (amended): the ULS objective pairs the descending-sorted floored
eigenvalues with the first `k` eigenvector columns in the decomposition's
returned order (not re-sorted); its loadings therefore agree with the
claimed "eigenvectors of the k largest eigenvalues times diag(sqrt)" form
exactly when the decomposition returns its eigenvalues already in
descending order. -/
theorem uls_objective_topk_when_sorted (values : List ℝ) (vectors : MatL) (k : ℕ)
    (hsorted : List.Sorted (fun a b : ℝ => a ≥ b) values)
    (hk : k ≤ values.length)
    (hrows : ∀ r ∈ vectors, r.length = values.length) :
    ulsLoadingsFromEig values vectors k = specUlsLoadings values vectors k := by
  have hfs : List.Sorted (fun a b : ℝ => a ≥ b) (flooredVals values) :=
    List.Pairwise.map _ (fun a b hab => max_le_max hab (le_refl epsFloor)) hsorted
  have hpairs : List.Pairwise (fun a b : ℝ × ℕ => a.1 ≥ b.1)
      ((flooredVals values).zip (List.range values.length)) :=
    pairwise_zip_left _ _ hfs
  have hfix : specSortedPairs values = (flooredVals values).zip (List.range values.length) :=
    List.Sorted.insertionSort_eq hpairs
  have hlf : (flooredVals values).length = values.length := List.length_map _ _
  have hfst : ((flooredVals values).zip (List.range values.length)).map
      (fun p : ℝ × ℕ => p.1) = flooredVals values := by
    rw [show (fun p : ℝ × ℕ => p.1) = Prod.fst from rfl]
    exact List.map_fst_zip _ _ (by simp [hlf])
  have hsnd : ((flooredVals values).zip (List.range values.length)).map
      (fun p : ℝ × ℕ => p.2) = List.range values.length := by
    rw [show (fun p : ℝ × ℕ => p.2) = Prod.snd from rfl]
    exact List.map_snd_zip _ _ (by simp [hlf])
  have hvals_eq : specTopVals values k = ulsTopVals values k := by
    rw [specTopVals, ulsTopVals, hfix, hfst, List.Sorted.insertionSort_eq hfs]
  have hvecs_eq : specTopVecs values vectors k = ulsVecsSlice vectors k := by
    rw [specTopVecs, ulsVecsSlice, hfix, hsnd]
    refine List.map_congr_left ?_
    intro r hr
    rw [List.take_range, min_eq_left hk,
      take_eq_map_getD r k (by rw [hrows r hr]; exact hk)]
  rw [ulsLoadingsFromEig, specUlsLoadings, hvals_eq, hvecs_eq]

/-- C1 witness: with eigenvalues already in descending order the code's
loadings and the spec's loadings coincide. -/
theorem uls_objective_topk_when_sorted_witness :
    (List.Sorted (fun a b : ℝ => a ≥ b) [4, 1] ∧ 1 ≤ ([4, 1] : List ℝ).length ∧
      ∀ r ∈ ([[1, 0], [0, 1]] : MatL), r.length = ([4, 1] : List ℝ).length) ∧
    ulsLoadingsFromEig [4, 1] [[1, 0], [0, 1]] 1 = specUlsLoadings [4, 1] [[1, 0], [0, 1]] 1 := by
  have h1 : List.Sorted (fun a b : ℝ => a ≥ b) [4, 1] := by
    simp [List.sorted_cons]
  have h2 : 1 ≤ ([4, 1] : List ℝ).length := by simp
  have h3 : ∀ r ∈ ([[1, 0], [0, 1]] : MatL), r.length = ([4, 1] : List ℝ).length := by
    intro r hr
    simp only [List.mem_cons, List.not_mem_nil, or_false] at hr
    rcases hr with rfl | rfl <;> rfl
  exact ⟨⟨h1, h2, h3⟩, uls_objective_topk_when_sorted [4, 1] [[1, 0], [0, 1]] 1 h1 h2 h3⟩

/-- C1 counterexample: a genuine eigendecomposition of the
diagonal-substituted correlation matrix (corr the 2×2 identity,
psi = (3/4, 51/100)) that reports its eigenvalues in ascending order.  The
code then scales the eigenvector of the smallest eigenvalue by the square
root of the largest one, and its loadings differ from the claimed
"eigenvectors corresponding to the k largest eigenvalues" loadings. -/
theorem uls_objective_eigvec_mismatch_cex :
    IsEigenpairsL (fill_diagonal [[1, 0], [0, 1]] (([3 / 4, 51 / 100] : List ℝ).map fun x => 1 - x))
      [1 / 4, 49 / 100] [[1, 0], [0, 1]] ∧
    ulsLoadingsFromEig [1 / 4, 49 / 100] [[1, 0], [0, 1]] 1
      ≠ specUlsLoadings [1 / 4, 49 / 100] [[1, 0], [0, 1]] 1 := by
  have heps1 : max (1 / 4 : ℝ) epsFloor = 1 / 4 := max_eq_left (by norm_num [epsFloor])
  have heps2 : max (49 / 100 : ℝ) epsFloor = 49 / 100 :=
    max_eq_left (by norm_num [epsFloor])
  have hfl : flooredVals [1 / 4, 49 / 100] = [1 / 4, 49 / 100] := by
    simp only [flooredVals, List.map_cons, List.map_nil, heps1, heps2]
  constructor
  · intro j hj
    simp only [List.length_cons, List.length_nil] at hj
    interval_cases j <;>
      norm_num [matVec, colOf, fill_diagonal, List.range_succ]
  · have hcode : ulsLoadingsFromEig [1 / 4, 49 / 100] [[1, 0], [0, 1]] 1
        = [[Real.sqrt (49 / 100)], [0]] := by
      rw [ulsLoadingsFromEig, if_neg (by norm_num)]
      rw [ulsTopVals, hfl]
      norm_num [List.insertionSort, List.orderedInsert, ulsVecsSlice]
    have hspec : specUlsLoadings [1 / 4, 49 / 100] [[1, 0], [0, 1]] 1
        = [[0], [Real.sqrt (49 / 100)]] := by
      rw [specUlsLoadings, if_neg (by norm_num)]
      rw [specTopVals, specTopVecs, specSortedPairs, hfl]
      norm_num [List.insertionSort, List.orderedInsert, List.range_succ]
    rw [hcode, hspec]
    intro h
    have h0 : Real.sqrt (49 / 100) = 0 := by
      have hh := congrArg (fun m : MatL => (m.headD []).headD 0) h
      simp at hh
    have : (0 : ℝ) < Real.sqrt (49 / 100) := Real.sqrt_pos.mpr (by norm_num)
    rw [h0] at this
    exact lt_irrefl 0 this

/-- C7: the fitting operation reports the null-correlation `ValueError` if
and only if the data's correlation matrix has a null/NaN entry, and when it
does, the error is raised identically for every numerical oracle — i.e.
before any optimization is attempted. -/
theorem fit_nullcorr_iff (lib : NumLib) (lw : Bool) (data : MatL) (k : ℕ)
    (use_smc : Bool) (bounds : Option (ℝ × ℝ)) (method : String) :
    ((fit_factor_analysis lib lw data k use_smc bounds method).1
        = Except.error FAErr.nullCorr ↔ hasNull (pearsonO data) = true) ∧
    (hasNull (pearsonO data) = true →
      ∀ lib' : NumLib, (fit_factor_analysis lib' lw data k use_smc bounds method).1
        = Except.error FAErr.nullCorr) := by
  by_cases hnull : hasNull (pearsonO data) = true
  · have hfit : ∀ lib' : NumLib,
        (fit_factor_analysis lib' lw data k use_smc bounds method).1
          = Except.error FAErr.nullCorr := by
      intro lib'
      simp only [fit_factor_analysis, fitCore]
      rw [if_pos hnull]
    exact ⟨⟨fun _ => hnull, fun _ => hfit lib⟩, fun _ => hfit⟩
  · have hne : (fit_factor_analysis lib lw data k use_smc bounds method).1
        ≠ Except.error FAErr.nullCorr := by
      simp only [fit_factor_analysis, fitCore]
      rw [if_neg hnull]
      split
      · rename_i e heq
        have he : e = FAErr.singular := by
          split at heq
          · split at heq
            · exact (Except.error.inj heq).symm
            · exact absurd heq (by simp)
          · exact absurd heq (by simp)
        subst he
        simp
      · simp
    exact ⟨⟨fun h => absurd h hne, fun h => absurd h hnull⟩, fun h => absurd h hnull⟩

/-- C7 witness: a table with a constant column has a NaN correlation entry
and the fit reports the null-correlation error. -/
theorem fit_nullcorr_iff_witness :
    hasNull (pearsonO [[1, 5], [2, 5]]) = true ∧
    (fit_factor_analysis lib0 false [[1, 5], [2, 5]] 1 false none "minres").1
      = Except.error FAErr.nullCorr := by
  have hc2 : covL [(5 : ℝ), 5] [(5 : ℝ), 5] = 0 := by
    norm_num [covL, centered, colMeanR]
  have hentry : corrEntryO [(5 : ℝ), 5] [(5 : ℝ), 5] = none := by
    simp only [corrEntryO]
    rw [if_pos (Or.inl hc2)]
  have hcols : columnsOf [[1, 5], [2, 5]] = [[1, 2], [5, 5]] := rfl
  have hn : hasNull (pearsonO [[1, 5], [2, 5]]) = true := by
    simp only [hasNull, pearsonO, hcols, List.map_cons, List.map_nil,
      List.any_cons, List.any_nil, hentry]
    simp
  exact ⟨hn, (fit_nullcorr_iff lib0 false [[1, 5], [2, 5]] 1 false none "minres").2 hn lib0⟩

theorem fitCore_error_cases (lib : NumLib) (lw : Bool) (data : MatL) (k : ℕ)
    (u : Bool) (b : Option (ℝ × ℝ)) (useML : Bool) :
    (fitCore lib lw data k u b useML).1 = Except.error FAErr.nullCorr ∨
    (fitCore lib lw data k u b useML).1 = Except.error FAErr.singular ∨
    ∃ l, (fitCore lib lw data k u b useML).1 = Except.ok l := by
  simp only [fitCore]
  split
  · left
    rfl
  · split
    · rename_i e heq
      have he : e = FAErr.singular := by
        split at heq
        · split at heq
          · exact (Except.error.inj heq).symm
          · exact absurd heq (by simp)
        · exact absurd heq (by simp)
      subst he
      right
      left
      rfl
    · right
      right
      exact ⟨_, rfl⟩

theorem fit_error_cases (lib : NumLib) (lw : Bool) (data : MatL) (k : ℕ)
    (u : Bool) (b : Option (ℝ × ℝ)) (method : String) :
    (fit_factor_analysis lib lw data k u b method).1 = Except.error FAErr.nullCorr ∨
    (fit_factor_analysis lib lw data k u b method).1 = Except.error FAErr.singular ∨
    ∃ l, (fit_factor_analysis lib lw data k u b method).1 = Except.ok l :=
  fitCore_error_cases lib lw data k u b (method == "ml")

theorem analyzeCompute_valid_ne_badRotation (lib : NumLib) (lw : Bool) (data : DataM)
    (k : ℕ) (rotation : Option String) (method : String) (u : Bool)
    (b : Option (ℝ × ℝ)) (nz : Bool) (imp : String)
    (hv : rotation ∈ [some "varimax", some "promax", none]) :
    analyzeCompute lib lw data k rotation method u b nz imp
      ≠ Except.error FAErr.badRotation := by
  simp only [analyzeCompute]
  rw [if_neg (not_not_intro hv)]
  split
  · rename_i e heq
    have he : e = FAErr.badImpute := by
      split at heq
      · simp only [imputeData] at heq
        split at heq
        · exact absurd heq (by simp)
        · split at heq
          · exact absurd heq (by simp)
          · split at heq
            · exact absurd heq (by simp)
            · exact (Except.error.inj heq).symm
      · exact absurd heq (by simp)
    subst he
    simp
  · split
    · simp
    · split
      · rename_i dfv dfeq hdf fitp e snd heq
        have hcases := fit_error_cases lib lw (scaleM (derefD dfv)) k u b method
        rw [heq] at hcases
        simp only [Prod.fst] at hcases
        rcases hcases with h1 | h1 | ⟨l, h1⟩
        · rw [Except.error.inj h1]
          simp
        · rw [Except.error.inj h1]
          simp
        · exact absurd h1 (by simp)
      · split
        · rename_i e2 heq2
          have he2 : e2 = FAErr.unpackFailed := by
            split at heq2
            · split at heq2
              · split at heq2
                · exact absurd heq2 (by simp)
                · exact (Except.error.inj heq2).symm
              · split at heq2
                · split at heq2
                  · exact absurd heq2 (by simp)
                  · exact (Except.error.inj heq2).symm
                · exact absurd heq2 (by simp)
            · exact absurd heq2 (by simp)
          subst he2
          simp
        · simp

/-- C8 (amended): for every configuration — any method value included —
`analyze` raises the rotation configuration error exactly when the
rotation value is outside `{varimax, promax, None}`; and a `method`
outside `{minres, ml}` never changes the fitting outcome — MINRES is
used, producing the same result as `method='minres'` — with the fallback
warning emitted exactly when warning logging is enabled
(`log_warnings=True`), not unconditionally. -/
theorem rotation_error_iff_and_method_fallback (lib : NumLib) (s : AnalyzerState)
    (data : DataM) (k : ℕ) (rotation : Option String) (method : String) (use_smc : Bool)
    (bounds : Option (ℝ × ℝ)) (normalizeK : Bool) (impute : String)
    (lw : Bool) (X : MatL) :
    ((analyze lib s data k rotation method use_smc bounds normalizeK impute
        = Except.error FAErr.badRotation)
      ↔ rotation ∉ [some "varimax", some "promax", none]) ∧
    (¬(method = "ml" ∨ method = "minres") →
      (fit_factor_analysis lib lw X k use_smc bounds method).1
        = (fit_factor_analysis lib lw X k use_smc bounds "minres").1 ∧
      (fit_factor_analysis lib lw X k use_smc bounds method).2
        = (if lw then [methodWarning] else [])
          ++ (fit_factor_analysis lib lw X k use_smc bounds "minres").2) := by
  refine ⟨?_, ?_⟩
  · constructor
    · intro h
      by_contra hvnot
      cases hC : analyzeCompute lib s.log_warnings data k rotation method use_smc bounds
          normalizeK impute with
      | error e =>
        simp only [analyze, hC] at h
        rw [Except.error.inj h] at hC
        exact analyzeCompute_valid_ne_badRotation lib s.log_warnings data k rotation
          method use_smc bounds normalizeK impute hvnot hC
      | ok r =>
        simp only [analyze, hC] at h
        exact absurd h (by simp)
    · intro hv
      have hC : analyzeCompute lib s.log_warnings data k rotation method use_smc bounds
          normalizeK impute = Except.error FAErr.badRotation := by
        simp only [analyzeCompute]
        rw [if_pos hv]
      simp only [analyze, hC]
  · intro hm
    have hml : method ≠ "ml" := fun h => hm (Or.inl h)
    have hmem : method ∉ ["ml", "minres"] := by
      simpa using hm
    have hcore : (method == "ml") = ("minres" == "ml") := by
      rw [beq_eq_false_iff_ne.mpr hml]
      rfl
    constructor
    · simp only [fit_factor_analysis]
      rw [hcore]
    · simp only [fit_factor_analysis]
      rw [hcore]
      cases lw <;> simp [hmem]

/-- C8 witness: the rotation iff at the recognized default method
`minres`, and the fallback equalities at the unrecognized method string
`foo`, whose hypothesis is discharged concretely. -/
theorem rotation_error_iff_and_method_fallback_witness :
    (¬(("foo" : String) = "ml" ∨ ("foo" : String) = "minres")) ∧
    (((analyze lib0 st0 data0 1 (some "varimax") "minres" false none true "median"
        = Except.error FAErr.badRotation)
      ↔ (some "varimax" : Option String) ∉ [some "varimax", some "promax", none]) ∧
     (fit_factor_analysis lib0 false [[1, -1], [-1, 1]] 1 false none "foo").1
       = (fit_factor_analysis lib0 false [[1, -1], [-1, 1]] 1 false none "minres").1 ∧
     (fit_factor_analysis lib0 false [[1, -1], [-1, 1]] 1 false none "foo").2
       = (if false then [methodWarning] else [])
         ++ (fit_factor_analysis lib0 false [[1, -1], [-1, 1]] 1 false none "minres").2) :=
  ⟨by simp,
   (rotation_error_iff_and_method_fallback lib0 st0 data0 1 (some "varimax") "minres" false
     none true "median" false [[1, -1], [-1, 1]]).1,
   (rotation_error_iff_and_method_fallback lib0 st0 data0 1 (some "varimax") "foo" false
     none true "median" false [[1, -1], [-1, 1]]).2 (by simp)⟩

/-- C8 counterexample: with the analyzer's default `log_warnings=False`, an
unrecognized method (`foo`) produces no warning at all — the claim's
unconditional "a warning is emitted" fails. -/
theorem method_warning_requires_logging_cex :
    (("foo" : String) ∉ ["ml", "minres"]) ∧
    (fit_factor_analysis lib0 false [[1, -1], [-1, 1]] 1 false none "foo").2 = [] := by
  constructor
  · simp
  · simp only [fit_factor_analysis, fitCore]
    rw [if_neg (by simp : ¬(("foo" : String) ∉ ["ml", "minres"] ∧ false = true))]
    simp only [List.nil_append]
    split
    · rfl
    · split
      · rfl
      · simp

/-- C4 (amended): `analyze` does not return its result to the caller as a
value; it stores the correlation matrix, loadings and
rotation-matrix-or-none into the instance fields, overwriting whatever was
there.  Its entire outcome is independent of the previously stored result
fields (two instances differing only in stored results behave
identically), and after a successful call the stored loadings and
correlation fields are populated. -/
theorem analyze_stores_result_in_state (lib : NumLib) (s₁ s₂ : AnalyzerState)
    (data : DataM) (k : ℕ) (rotation : Option String) (method : String)
    (use_smc : Bool) (bounds : Option (ℝ × ℝ)) (normalizeK : Bool) (impute : String)
    (h : s₁.log_warnings = s₂.log_warnings) :
    analyze lib s₁ data k rotation method use_smc bounds normalizeK impute
      = analyze lib s₂ data k rotation method use_smc bounds normalizeK impute ∧
    (∀ post ws, analyze lib s₁ data k rotation method use_smc bounds normalizeK impute
        = Except.ok (post, ws) →
      post.loadings.isSome = true ∧ post.corr.isSome = true ∧
      post.log_warnings = s₁.log_warnings) := by
  constructor
  · simp only [analyze, h]
  · intro post ws hok
    cases hC : analyzeCompute lib s₁.log_warnings data k rotation method use_smc bounds
        normalizeK impute with
    | error e =>
      simp only [analyze, hC] at hok
      exact absurd hok (by simp)
    | ok r =>
      simp only [analyze, hC] at hok
      injection hok with hpair
      injection hpair with h1 h2
      subst h1
      exact ⟨rfl, rfl, rfl⟩

/-- C4 witness: two analyzers that differ only in their previously stored
results produce identical outcomes, and a successful call stores the new
result. -/
theorem analyze_stores_result_in_state_witness :
    (st0.log_warnings = (⟨false, some [], some [], none⟩ : AnalyzerState).log_warnings) ∧
    (analyze lib0 st0 data0 1 none "minres" false none true "median"
       = analyze lib0 ⟨false, some [], some [], none⟩ data0 1 none "minres" false none
           true "median" ∧
     (∀ post ws, analyze lib0 st0 data0 1 none "minres" false none true "median"
         = Except.ok (post, ws) →
       post.loadings.isSome = true ∧ post.corr.isSome = true ∧
       post.log_warnings = st0.log_warnings)) :=
  ⟨rfl, analyze_stores_result_in_state lib0 st0 ⟨false, some [], some [], none⟩ data0 1
    none "minres" false none true "median" rfl⟩

/-- C4 counterexample: a fresh analyzer has `loadings = None`; after one
`analyze` call the instance field holds the new loadings — the invocation
mutated the instance rather than leaving it unchanged, and the call itself
returned no loadings value (the Python method returns `None`). -/
theorem analyze_overwrites_state_cex :
    ((analyze lib0 st0 data0 1 none "minres" false none true "median").toOption.map
      fun r => r.1.loadings.isSome) = some true ∧ st0.loadings.isSome = false := by
  have hmean1 : colMeanR [(1 : ℝ), -1] = 0 := by norm_num [colMeanR]
  have hmean2 : colMeanR [(-1 : ℝ), 1] = 0 := by norm_num [colMeanR]
  have hcov1 : covL [(1 : ℝ), -1] [(1 : ℝ), -1] = 2 := by
    norm_num [covL, centered, hmean1]
  have hcov2 : covL [(-1 : ℝ), 1] [(-1 : ℝ), 1] = 2 := by
    norm_num [covL, centered, hmean2]
  have hsc1 : scaleCol [(1 : ℝ), -1] = [1, -1] := by
    simp only [scaleCol, hmean1, hcov1, List.map_cons, List.map_nil, List.length_cons,
      List.length_nil]
    norm_num
  have hsc2 : scaleCol [(-1 : ℝ), 1] = [-1, 1] := by
    simp only [scaleCol, hmean2, hcov2, List.map_cons, List.map_nil, List.length_cons,
      List.length_nil]
    norm_num
  have hX : scaleM (derefD data0) = [[1, -1], [-1, 1]] := by
    show rowsFromCols ((columnsOf (derefD data0)).map scaleCol) (derefD data0).length = _
    rw [show columnsOf (derefD data0) = [[(1 : ℝ), -1], [(-1 : ℝ), 1]] from rfl]
    rw [List.map_cons, List.map_cons, List.map_nil, hsc1, hsc2]
    rfl
  have hiso : ∀ a b : List ℝ, covL a a ≠ 0 → covL b b ≠ 0 →
      (corrEntryO a b).isNone = false := by
    intro a b ha hb
    simp only [corrEntryO]
    rw [if_neg (by tauto)]
    rfl
  have h20 : covL [(1 : ℝ), -1] [(1 : ℝ), -1] ≠ 0 := by rw [hcov1]; norm_num
  have h21 : covL [(-1 : ℝ), 1] [(-1 : ℝ), 1] ≠ 0 := by rw [hcov2]; norm_num
  have hnull : hasNull (pearsonO [[1, -1], [-1, 1]]) = false := by
    rw [show pearsonO [[1, -1], [-1, 1]]
        = [[corrEntryO [(1 : ℝ), -1] [(1 : ℝ), -1], corrEntryO [(1 : ℝ), -1] [(-1 : ℝ), 1]],
           [corrEntryO [(-1 : ℝ), 1] [(1 : ℝ), -1], corrEntryO [(-1 : ℝ), 1] [(-1 : ℝ), 1]]]
      from rfl]
    simp only [hasNull, List.any_cons, List.any_nil,
      hiso _ _ h20 h20, hiso _ _ h20 h21, hiso _ _ h21 h20, hiso _ _ h21 h21]
    rfl
  have hfit : fit_factor_analysis lib0 false [[1, -1], [-1, 1]] 1 false none "minres"
      = (Except.ok (normalize_wls lib0
          (List.replicate (List.map (fun x => List.map (fun y => y.getD 0) x)
            (pearsonO [[1, -1], [-1, 1]])).length (1 / 2))
          (List.map (fun x => List.map (fun y => y.getD 0) x)
            (pearsonO [[1, -1], [-1, 1]])) 1), []) := by
    simp only [fit_factor_analysis, fitCore]
    rw [if_neg (by simp : ¬(("minres" : String) ∉ ["ml", "minres"] ∧ false = true))]
    rw [if_neg (by simp [hnull])]
    simp only [Bool.false_eq_true, if_false, List.nil_append]
    rfl
  constructor
  · simp only [analyze, analyzeCompute, st0]
    rw [if_neg (by simp : ¬((none : Option String) ∉ [some "varimax", some "promax", none]))]
    simp only [show hasMissingD data0 = false from rfl, Bool.false_eq_true, if_false]
    rw [hX, hfit]
    rfl
  · rfl
